import Mathlib

/-!
Shallow embedding of the PChain validator-set, commit-verification, replay
and fast-sync logic (vendor/github.com/tendermint/tendermint), together with
proofs checking the natural-language specification against it.

Go `int` and `*big.Int` values are modelled as `Int`; byte slices
(addresses) as `List Nat`; Go `nil` pointers as `Option`.  The BLS
primitives (`crypto.BLSPubKeyAggregate`, `PubKey.VerifyBytes`) and the
canonical encoding `SignBytes` live outside this repository slice, so they
are abstracted as function parameters: every theorem quantifies over them.
-/

/-- Embedding of Go `bytes.Compare` on byte slices: lexicographic order,
a proper prefix is smaller. -/
def bytesCompare : List Nat → List Nat → Ordering
  | [], [] => Ordering.eq
  | [], _ :: _ => Ordering.lt
  | _ :: _, [] => Ordering.gt
  | a :: as, b :: bs =>
    if a < b then Ordering.lt
    else if b < a then Ordering.gt
    else bytesCompare as bs

/-- Embedding of `types.Validator` (validator.go): address, BLS public key,
voting power and proposer-selection accumulator.  Public keys are abstracted
as `Nat`. -/
structure Validator where
  address : List Nat
  pubKey : Nat
  votingPower : Int
  accum : Int
deriving DecidableEq

/-- Embedding of `types.ValidatorSet` (validator_set.go): the sorted roster,
the designated proposer (`nil`-able pointer) and the cached
`totalVotingPower` (`nil`-able `*big.Int`, hence `Option Int`). -/
structure ValidatorSet where
  validators : List Validator
  proposer : Option Validator
  totalVotingPower : Option Int
deriving DecidableEq

/-- Sum of the voting powers of a list of validators. -/
def sumPowers (l : List Validator) : Int := (l.map (fun v => v.votingPower)).sum

/-- Sum of the accum values of a list of validators. -/
def sumAccums (l : List Validator) : Int := (l.map (fun v => v.accum)).sum

/-- Embedding of `ValidatorSet.Size()`. -/
def ValidatorSet.size (vs : ValidatorSet) : Nat := vs.validators.length

/-- Value returned by `ValidatorSet.TotalVotingPower()`: the cached value if
present, otherwise the sum of the voting powers (which the Go method then
caches). -/
def totalVotingPowerValue (vs : ValidatorSet) : Int :=
  vs.totalVotingPower.getD (sumPowers vs.validators)

/-- Well-formedness of the `totalVotingPower` cache: it is either unset or
holds the sum of the voting powers.  Every state the program constructs
satisfies this: `Add`, `Update` and `Remove` reset the cache to `nil` and
`TotalVotingPower()` fills it with the sum. -/
def cacheConsistent (vs : ValidatorSet) : Prop :=
  vs.totalVotingPower = none ∨ vs.totalVotingPower = some (sumPowers vs.validators)

/-- Modelled from the spec: `cmn.BitArray` (go-common, not in this source
slice) is a fixed-width bitmap over validator indices; `Size()` is the
width and `GetIndex i` the i-th bit. -/
abbrev BitArray := List Bool

/-- Embedding of `ValidatorSet.TalliedVotingPower(bitMap)`
(validator_set.go lines 106-122).  Checks bitmap non-nil, validators
non-nil, equal sizes, and then sums voting powers over `0 ≤ i < bitMap.Size()`
— the Go loop body adds `validators[i].VotingPower` unconditionally, never
consulting `bitMap.GetIndex(i)`. -/
def talliedVotingPower (vs : ValidatorSet) (bitMap : Option BitArray) :
    Except String Int :=
  match bitMap with
  | none => Except.error "Invalid bitmap(nil)"
  | some bm =>
    if vs.validators.isEmpty then Except.error "Invalid validators(nil)"
    else if vs.size ≠ bm.length then Except.error "Size is not equal"
    else Except.ok (sumPowers vs.validators)

/-- What the spec says `TalliedVotingPower` computes: the sum of the voting
powers of exactly the validators whose bit is set. -/
def talliedVotingPowerSpec (vs : ValidatorSet) (bm : BitArray) : Int :=
  ((vs.validators.zip bm).filter (fun p => p.2)).foldl
    (fun acc p => acc + p.1.votingPower) 0

/-- The public keys selected by a bitmap: `pks` accumulated by the loop in
`AggrPubKey`. -/
def selectedPubKeys (vs : ValidatorSet) (bm : BitArray) : List Nat :=
  ((vs.validators.zip bm).filter (fun p => p.2)).map (fun p => p.1.pubKey)

/-- Embedding of `ValidatorSet.AggrPubKey(bitMap)` (validator_set.go lines
89-104).  `agg` abstracts `crypto.BLSPubKeyAggregate`.  Returns `none`
(Go `nil`) for a nil bitmap or a size mismatch. -/
def aggrPubKey (agg : List Nat → Nat) (vs : ValidatorSet)
    (bitMap : Option BitArray) : Option Nat :=
  match bitMap with
  | none => none
  | some bm =>
    if bm.length ≠ vs.validators.length then none
    else some (agg (selectedPubKeys vs bm))

/-- The quorum threshold computed by `VerifyCommit` (validator_set.go lines
312-315): `quorum := total*2; quorum /= 3; quorum += 1` with `big.Int.Div`,
which is Euclidean division (`Int.ediv`). -/
def quorumOf (total : Int) : Int := Int.ediv (total * 2) 3 + 1

/-- The quorum formula asserted by the spec: `⌈2·total/3⌉ + 1`, written with
the ceiling of the exact rational `2·total/3` expressed as
`-((-(2·total)) ediv 3)`. -/
def quorumSpecCeil (total : Int) : Int := -(Int.ediv (-(total * 2)) 3) + 1

/-- A block id: block hash plus part-set header hash. -/
abbrev BlockID := Nat × Nat

/-- Embedding of the vote value `VerifyCommit` rebuilds before calling
`SignBytes` (validator_set.go lines 296-302). -/
structure Vote where
  blockID : BlockID
  height : Int
  round : Int
  vtype : Nat
deriving DecidableEq

/-- Modelled from the spec: the `types.Commit` / SignAggr container
(types/block.go is not in this source slice): height, round, vote type,
block id, validator bitmap and the aggregated BLS signature. -/
structure Commit where
  height : Int
  round : Int
  ctype : Nat
  blockID : BlockID
  bitArray : BitArray
  signAggr : Nat
deriving DecidableEq

/-- The vote value `VerifyCommit` rebuilds from the commit before calling
`SignBytes` (validator_set.go lines 296-302). -/
def voteOfCommit (c : Commit) : Vote :=
  { blockID := c.blockID, height := c.height, round := c.round, vtype := c.ctype }

/-- Possible outcomes of `VerifyCommit`: a `nil` return (`accepts`), a
non-nil error (`errors`), or a Go runtime panic (`panics`, reached when the
`totalVotingPower` cache is a nil `*big.Int` and `quorum.Mul` dereferences
it, or when a nil aggregate public key is used). -/
inductive VCOutcome where
  | accepts
  | errors
  | panics
deriving DecidableEq

/-- Embedding of `ValidatorSet.VerifyCommit(chainID, blockID, height,
commit)` (validator_set.go lines 282-323).  `agg` abstracts
`crypto.BLSPubKeyAggregate`, `verify` abstracts `PubKey.VerifyBytes`, and
`signBytes` abstracts the canonical `SignBytes(chainID, vote)` encoding.
The `blockID` argument is accepted but never used, exactly as in the Go
code (the vote is rebuilt from `commit.BlockID`). -/
def verifyCommit (agg : List Nat → Nat) (verify : Nat → Nat → Nat → Bool)
    (signBytes : String → Vote → Nat) (vs : ValidatorSet) (chainID : String)
    (blockID : BlockID) (height : Int) (commit : Option Commit) : VCOutcome :=
  match commit with
  | none => VCOutcome.errors
  | some c =>
    if vs.size ≠ c.bitArray.length then VCOutcome.errors
    else if height ≠ c.height then VCOutcome.errors
    else
      match aggrPubKey agg vs (some c.bitArray) with
      | none => VCOutcome.panics
      | some pk =>
        if ¬ verify pk (signBytes chainID (voteOfCommit c)) c.signAggr then
          VCOutcome.errors
        else
          match talliedVotingPower vs (some c.bitArray) with
          | Except.error _ => VCOutcome.errors
          | Except.ok tallied =>
            match vs.totalVotingPower with
            | none => VCOutcome.panics
            | some total =>
              if quorumOf total ≤ tallied then VCOutcome.accepts
              else VCOutcome.errors

/-- The strict order by which the accum heap ranks validators, from
`accumComparable.Less` and `Validator.CompareAccum` (validator.go lines
547-565): `v` beats `w` when its accum is greater, or the accums are equal
and its address is smaller. -/
def vBeats (v w : Validator) : Bool :=
  decide (w.accum < v.accum) ||
    (decide (v.accum = w.accum) && decide (bytesCompare v.address w.address = Ordering.lt))

/-- Scan for the index of the best validator so far: `best`/`bestV` is the
current champion, `i` the index of the next element. -/
def pickIdxAux (best : Nat) (bestV : Validator) (i : Nat) :
    List Validator → Nat
  | [] => best
  | w :: t =>
    if vBeats w bestV then pickIdxAux i w (i + 1) t
    else pickIdxAux best bestV (i + 1) t

/-- Modelled from the spec: `cmn.NewHeap` (go-common, not in this source
slice) ordered by `accumComparable.Less`; its `Peek` yields "the validator
with the largest `accum` (ties broken by address ascending)".  `pickIdx`
returns the index of that validator (0 on an empty list). -/
def pickIdx : List Validator → Nat
  | [] => 0
  | v :: t => pickIdxAux 0 v 1 t

/-- Subtract `T` from the accum of the validator at index `i` (the in-place
`mostest.Accum.Sub(mostest.Accum, TotalVotingPower())`). -/
def updAccum (T : Int) : Nat → List Validator → List Validator
  | _, [] => []
  | 0, v :: t => { v with accum := v.accum - T } :: t
  | n + 1, v :: t => v :: updAccum T n t

/-- The first loop of `IncrementAccum` (validator_set.go lines 60-63): add
`VotingPower * times` to every validator's accum. -/
def addAccums (times : Int) (l : List Validator) : List Validator :=
  l.map (fun v => { v with accum := v.accum + v.votingPower * times })

/-- One iteration of the decrement loop of `IncrementAccum`: peek the
heap maximum and subtract the total voting power from it. -/
def decOnce (T : Int) (l : List Validator) : List Validator :=
  updAccum T (pickIdx l) l

/-- Iterate `decOnce` `k` times. -/
def decIter (T : Int) : Nat → List Validator → List Validator
  | 0, l => l
  | k + 1, l => decIter T k (decOnce T l)

/-- Embedding of `ValidatorSet.IncrementAccum(times)` (validator_set.go
lines 57-74): add `VotingPower * times` to every accum, then `times` times
pick the heap maximum and subtract the total voting power from it; on the
last iteration the picked validator becomes the proposer (the Go `Proposer`
field aliases the list element, so its accum reflects the final
subtraction).  `times = 0` leaves the proposer untouched, as the Go loop
body never runs. -/
def incrementAccum (times : Nat) (vs : ValidatorSet) : ValidatorSet :=
  let T := totalVotingPowerValue vs
  let l1 := addAccums (times : Int) vs.validators
  let l2 := decIter T times l1
  { validators := l2,
    proposer :=
      match times with
      | 0 => vs.proposer
      | k + 1 => l2.get? (pickIdx (decIter T k l1)),
    totalVotingPower := some T }

/-- Modelled from the spec: one round of the reference proposer-selection
procedure — "add each validator's voting power to its `accum`, then pick
the validator with the largest `accum` (ties broken by address ascending),
record it as proposer, subtract total voting power from its `accum`". -/
def refRound (vs : ValidatorSet) : ValidatorSet :=
  let T := sumPowers vs.validators
  let l1 := addAccums 1 vs.validators
  let i := pickIdx l1
  let l2 := updAccum T i l1
  { validators := l2, proposer := l2.get? i, totalVotingPower := some T }

/-- `times` successive rounds of the reference procedure (equivalently
`times` successive calls of `IncrementAccum(1)` under a consistent cache). -/
def refIter : Nat → ValidatorSet → ValidatorSet
  | 0, vs => vs
  | k + 1, vs => refIter k (refRound vs)

/-- Scan for the first index `i` with `f i = true`, starting at `i` with
`fuel` indices left to try; returns `i + fuel` when none holds. -/
def sortSearchAux (f : Nat → Bool) : Nat → Nat → Nat
  | i, 0 => i
  | i, fuel + 1 => if f i then i else sortSearchAux f (i + 1) fuel

/-- Embedding of Go `sort.Search(n, f)`: the smallest index `i < n` with
`f(i)` true, else `n` (the binary search realizes exactly this contract for
the monotone predicates used on the address-sorted roster). -/
def sortSearch (n : Nat) (f : Nat → Bool) : Nat := sortSearchAux f 0 n

/-- Address of the validator at index `i` (used only inside the
`sort.Search` predicates, where Go would index the slice). -/
def addrAt (l : List Validator) (i : Nat) : List Nat :=
  match l.get? i with
  | some v => v.address
  | none => []

/-- The `sort.Search` call shared by `HasAddress`, `GetByAddress`, `Add`
and `Remove`: the smallest index whose validator's address is not below the
query. -/
def addrSearchIdx (l : List Validator) (address : List Nat) : Nat :=
  sortSearch l.length
    (fun i => decide (bytesCompare address (addrAt l i) ≠ Ordering.gt))

/-- Embedding of `ValidatorSet.GetByAddress(address)` (validator_set.go
lines 152-161): lower-bound search by address; returns the index and a copy
of the validator when found, `(0, nil)` otherwise.  Copying is the identity
in this value-level model. -/
def getByAddress (vs : ValidatorSet) (address : List Nat) :
    Nat × Option Validator :=
  let idx := addrSearchIdx vs.validators address
  if idx ≠ vs.validators.length ∧
      bytesCompare (addrAt vs.validators idx) address = Ordering.eq then
    (idx, vs.validators.get? idx)
  else (0, none)

/-- Insert a validator at position `i`. -/
def insertAt (i : Nat) (val : Validator) (l : List Validator) : List Validator :=
  l.take i ++ val :: l.drop i

/-- Remove the validator at position `i`. -/
def removeAt (i : Nat) (l : List Validator) : List Validator :=
  l.take i ++ l.drop (i + 1)

/-- Embedding of `ValidatorSet.Add(val)` (validator_set.go lines 213-237):
insert in address order unless the address is already present; on success
the proposer and the `totalVotingPower` cache are invalidated. -/
def ValidatorSet.add (vs : ValidatorSet) (val : Validator) :
    ValidatorSet × Bool :=
  let n := vs.validators.length
  let idx := addrSearchIdx vs.validators val.address
  if idx = n then
    ({ validators := vs.validators ++ [val], proposer := none,
       totalVotingPower := none }, true)
  else if bytesCompare (addrAt vs.validators idx) val.address = Ordering.eq then
    (vs, false)
  else
    ({ validators := insertAt idx val vs.validators, proposer := none,
       totalVotingPower := none }, true)

/-- Embedding of `ValidatorSet.Update(val)` (validator_set.go lines
239-250): replace the validator with the same address, invalidating the
caches; `false` when the address is absent. -/
def ValidatorSet.update (vs : ValidatorSet) (val : Validator) :
    ValidatorSet × Bool :=
  match getByAddress vs val.address with
  | (_, none) => (vs, false)
  | (index, some _) =>
    ({ validators := vs.validators.set index val, proposer := none,
       totalVotingPower := none }, true)

/-- Embedding of `ValidatorSet.Remove(address)` (validator_set.go lines
252-270): delete the validator with the given address, invalidating the
caches; `(nil, false)` when absent. -/
def ValidatorSet.remove (vs : ValidatorSet) (address : List Nat) :
    ValidatorSet × Option Validator × Bool :=
  let n := vs.validators.length
  let idx := addrSearchIdx vs.validators address
  if idx = n ∨ bytesCompare (addrAt vs.validators idx) address ≠ Ordering.eq then
    (vs, none, false)
  else
    ({ validators := removeAt idx vs.validators, proposer := none,
       totalVotingPower := none }, vs.validators.get? idx, true)

/-- Embedding of `types.NewValidator(pubKey, votingPower)` (validator.go
lines 521-528); `addrOf` abstracts `PubKey.Address()`. -/
def newValidator (addrOf : Nat → List Nat) (pubKey : Nat)
    (votingPower : Int) : Validator :=
  { address := addrOf pubKey, pubKey := pubKey, votingPower := votingPower,
    accum := 0 }

/-- An `abci.Validator` change record as consumed by `UpdateValidators`:
a public key (already decoded) and a power. -/
structure ValidatorChange where
  pubKey : Nat
  power : Int
deriving DecidableEq

/-- Embedding of `types.UpdateValidators(validators, changedValidators)`
(validator_set.go lines 353-392), with the go-wire pubkey decoding
abstracted away (`addrOf` abstracts `PubKey.Address()`).  Each change is
processed in order: negative power errors out; an address not yet in the
set is added (`NewValidator`); otherwise power 0 removes and any other
power updates. -/
def updateValidators (addrOf : Nat → List Nat) (vs : ValidatorSet) :
    List ValidatorChange → Except String ValidatorSet
  | [] => Except.ok vs
  | c :: rest =>
    if c.power < 0 then Except.error "Power overflows int64"
    else
      let address := addrOf c.pubKey
      match getByAddress vs address with
      | (_, none) =>
        let r := vs.add (newValidator addrOf c.pubKey c.power)
        if r.2 then updateValidators addrOf r.1 rest
        else Except.error "Failed to add new validator"
      | (_, some val) =>
        if c.power = 0 then
          let r := vs.remove address
          if r.2.2 then updateValidators addrOf r.1 rest
          else Except.error "Failed to remove validator"
        else
          let r := vs.update { val with votingPower := c.power }
          if r.2 then updateValidators addrOf r.1 rest
          else Except.error "Failed to update validator"

/-- The control-flow outcomes of `Handshaker.ReplayBlocks` (replay.go lines
259-327), one constructor per return/panic site. -/
inductive ReplayDecision where
  | checkAppHashOnly
  | errAppBlockHeightTooHigh
  | panicStateAheadOfStore
  | panicStoreTooFarAhead
  | replayBlocksNoMutate
  | replayBlocksMutate
  | replayLastRealApp
  | replayLastMockApp
  | panicShouldNeverHappen
deriving DecidableEq

/-- Embedding of the height-reconciliation branch structure of
`Handshaker.ReplayBlocks(appHash, appBlockHeight, ...)` (replay.go lines
259-327) as a function of the three heights. -/
def replayBlocksDecision (appH storeH stateH : Int) : ReplayDecision :=
  if storeH = 0 then ReplayDecision.checkAppHashOnly
  else if storeH < appH then ReplayDecision.errAppBlockHeightTooHigh
  else if storeH < stateH then ReplayDecision.panicStateAheadOfStore
  else if stateH + 1 < storeH then ReplayDecision.panicStoreTooFarAhead
  else if storeH = stateH then
    if appH < storeH then ReplayDecision.replayBlocksNoMutate
    else if appH = storeH then ReplayDecision.checkAppHashOnly
    else ReplayDecision.panicShouldNeverHappen
  else
    if appH < stateH then ReplayDecision.replayBlocksMutate
    else if appH = stateH then ReplayDecision.replayLastRealApp
    else if appH = storeH then ReplayDecision.replayLastMockApp
    else ReplayDecision.panicShouldNeverHappen

/-- Whether a `ReplayBlocks` outcome is a Go panic (`PanicSanity`). -/
def isPanicDecision : ReplayDecision → Bool
  | ReplayDecision.panicStateAheadOfStore => true
  | ReplayDecision.panicStoreTooFarAhead => true
  | ReplayDecision.panicShouldNeverHappen => true
  | _ => false

/-- Modelled from the spec: a fast-sync block as used by the sync loop —
height, hash, part-set-header hash, and the `LastCommit` SignAggr
(types/block.go is not in this source slice). -/
structure Block where
  height : Int
  hash : Nat
  partSetHash : Nat
  lastCommit : Option Commit
deriving DecidableEq

/-- Effect of one iteration of the `SYNC_LOOP` body in
`BlockchainReactor.poolRoutine` (blockchain reactor, lines 923-969 of the
types/blockchain slice). -/
inductive SyncAction where
  | noBlocks
  | redoRequest (h : Int)
  | saveAndApply (b : Block)
  | panics
deriving DecidableEq

/-- Embedding of one iteration of the `SYNC_LOOP` body: peek two
consecutive blocks; if both are present, verify the second block's
`LastCommit` with `VerifyCommit` against the current validator set, the
first block's height and the first block's id; on error redo the request
for the first height, otherwise pop the request, save the first block and
apply it to the app. -/
def fastSyncStep (agg : List Nat → Nat) (verify : Nat → Nat → Nat → Bool)
    (signBytes : String → Vote → Nat) (chainID : String) (vs : ValidatorSet)
    (first second : Option Block) : SyncAction :=
  match first, second with
  | some f, some s =>
    match verifyCommit agg verify signBytes vs chainID (f.hash, f.partSetHash)
        f.height s.lastCommit with
    | VCOutcome.accepts => SyncAction.saveAndApply f
    | VCOutcome.errors => SyncAction.redoRequest f.height
    | VCOutcome.panics => SyncAction.panics
  | _, _ => SyncAction.noBlocks

/-- A store of validator objects: Go pointers become indices into this
list.  Models which `*Validator` object each pointer designates. -/
abbrev VStore := List Validator

/-- A pointer-level validator set: the roster and the proposer hold
pointers into a `VStore`. -/
structure ValidatorSetP where
  validatorPtrs : List Nat
  proposerPtr : Option Nat
deriving DecidableEq

/-- Every pointer of the set is a live cell of the store. -/
def wfP (st : VStore) (vs : ValidatorSetP) : Prop :=
  (∀ p ∈ vs.validatorPtrs, p < st.length) ∧
    (∀ p, vs.proposerPtr = some p → p < st.length)

/-- Allocate a fresh cell holding `v` (Go `Validator.Copy()` allocating a
new object): returns the extended store and the fresh pointer. -/
def allocVal (st : VStore) (v : Validator) : VStore × Nat :=
  (st ++ [v], st.length)

/-- The validator object designated by the i-th roster pointer. -/
def valAtP (st : VStore) (vs : ValidatorSetP) (i : Nat) : Option Validator :=
  (vs.validatorPtrs.get? i).bind (fun p => st.get? p)

/-- Pointer-level embedding of `GetByAddress`: find the validator by
address and hand out a pointer to a fresh copy (`Copy()` on return,
validator_set.go line 157). -/
def getByAddressP (st : VStore) (vs : ValidatorSetP) (address : List Nat) :
    VStore × Nat × Option Nat :=
  let n := vs.validatorPtrs.length
  let addrAtI := fun i =>
    match valAtP st vs i with
    | some v => v.address
    | none => []
  let idx := sortSearch n
    (fun i => decide (bytesCompare address (addrAtI i) ≠ Ordering.gt))
  if idx ≠ n ∧ bytesCompare (addrAtI idx) address = Ordering.eq then
    match valAtP st vs idx with
    | some v =>
      let a := allocVal st v
      (a.1, idx, some a.2)
    | none => (st, 0, none)
  else (st, 0, none)

/-- Pointer-level embedding of `GetByIndex`: hand out the stored address
and a pointer to a fresh copy (`Copy()` on return, validator_set.go line
165). -/
def getByIndexP (st : VStore) (vs : ValidatorSetP) (index : Nat) :
    VStore × List Nat × Option Nat :=
  match valAtP st vs index with
  | some v =>
    let a := allocVal st v
    (a.1, v.address, some a.2)
  | none => (st, [], none)

/-- Pointer-level embedding of `Iterate`: the callback receives a pointer
to a fresh copy of each validator (`Copy()` at validator_set.go line 274);
returns the extended store and the pointers handed to the callback. -/
def iterateP (st : VStore) (vs : ValidatorSetP) : VStore × List Nat :=
  match vs.validatorPtrs with
  | [] => (st, [])
  | _ =>
    let n := st.length
    let copies := (List.range vs.validatorPtrs.length).map
      (fun i => (valAtP st vs i).getD
        { address := [], pubKey := 0, votingPower := 0, accum := 0 })
    (st ++ copies, (List.range copies.length).map (fun i => n + i))

/-- Everything the claim observes about a pointer-level set: the validator
objects of the roster, the total voting power computed from them, and the
proposer object. -/
def observeP (st : VStore) (vs : ValidatorSetP) :
    List (Option Validator) × Int × Option Validator :=
  let vals := vs.validatorPtrs.map (fun p => st.get? p)
  (vals,
   (vals.map (fun v => (Option.map Validator.votingPower v).getD 0)).sum,
   vs.proposerPtr.bind (fun p => st.get? p))

/-- Mutate the object a pointer designates (the claim's "changing its
VotingPower or Accum" on a returned validator). -/
def setPtr (st : VStore) (p : Nat) (v : Validator) : VStore := st.set p v

/-- A trivial aggregate function, for concrete instantiations. -/
def agg0 : List Nat → Nat := fun _ => 0

/-- A verifier that accepts everything, for concrete instantiations. -/
def verifyAlways : Nat → Nat → Nat → Bool := fun _ _ _ => true

/-- A trivial sign-bytes encoding, for concrete instantiations. -/
def sb0 : String → Vote → Nat := fun _ _ => 0

/-- An address assignment for concrete instantiations: the singleton byte
string of the key. -/
def addrOfW : Nat → List Nat := fun pk => [pk]

/-- Concrete two-validator set (powers 5 and 7) exhibiting the
`TalliedVotingPower` divergence. -/
def vsC1 : ValidatorSet :=
  { validators := [{ address := [1], pubKey := 1, votingPower := 5, accum := 0 },
                   { address := [2], pubKey := 2, votingPower := 7, accum := 0 }],
    proposer := none, totalVotingPower := none }

/-- Concrete one-validator set with a populated cache, for the
`VerifyCommit` witness. -/
def vsW2 : ValidatorSet :=
  { validators := [{ address := [1], pubKey := 1, votingPower := 1, accum := 0 }],
    proposer := none, totalVotingPower := some 1 }

/-- Concrete commit matching `vsW2` at height 3. -/
def cW2 : Commit :=
  { height := 3, round := 0, ctype := 2, blockID := (0, 0),
    bitArray := [true], signAggr := 0 }

/-- Concrete commit with a two-bit bitmap, mismatching `vsW2`. -/
def cW4 : Commit :=
  { height := 3, round := 0, ctype := 2, blockID := (0, 0),
    bitArray := [true, false], signAggr := 0 }

/-- Concrete two-validator set (powers 1 and 2, accums -2 and -3) on which
the batched and the per-round proposer selection disagree. -/
def vsC5 : ValidatorSet :=
  { validators := [{ address := [0], pubKey := 0, votingPower := 1, accum := -2 },
                   { address := [1], pubKey := 1, votingPower := 2, accum := -3 }],
    proposer := none, totalVotingPower := none }

/-- The empty validator set. -/
def vsEmpty : ValidatorSet :=
  { validators := [], proposer := none, totalVotingPower := none }

/-- Concrete one-validator set (address `[5]`, power 3) for the
`UpdateValidators` witness. -/
def vsW9 : ValidatorSet :=
  { validators := [{ address := [5], pubKey := 5, votingPower := 3, accum := 0 }],
    proposer := none, totalVotingPower := some 3 }

/-- Concrete sync blocks for the fast-sync witness: the second block has a
nil `LastCommit`, so its verification errors. -/
def blkW8a : Block := { height := 1, hash := 7, partSetHash := 8, lastCommit := none }

/-- Second concrete sync block for the fast-sync witness. -/
def blkW8b : Block := { height := 2, hash := 9, partSetHash := 10, lastCommit := none }

/-- Concrete one-cell store for the frame-property witness. -/
def stW10 : VStore := [{ address := [1], pubKey := 1, votingPower := 5, accum := 0 }]

/-- Concrete pointer-level set over `stW10`. -/
def vsW10 : ValidatorSetP := { validatorPtrs := [0], proposerPtr := some 0 }

/-- C1: the claim says `TalliedVotingPower(bitmap)` sums the voting powers
of exactly the validators whose bit is set.  On the two-validator set with
powers 5 and 7 and the bitmap `[true, false]` the code returns 12 — the sum
over all validators, ignoring the bits — where the claimed behaviour is 5.
The nil-bitmap and size-mismatch error cases do hold. -/
theorem c1_tallied_ignores_bitmap :
    talliedVotingPower vsC1 (some [true, false]) = Except.ok 12 ∧
    talliedVotingPowerSpec vsC1 [true, false] = 5 ∧
    talliedVotingPower vsC1 none = Except.error "Invalid bitmap(nil)" ∧
    talliedVotingPower vsC1 (some [true]) = Except.error "Size is not equal" := by
  refine ⟨rfl, by decide, rfl, rfl⟩

/-- C3 counterexample: for total voting power 1, the quorum computed by
`VerifyCommit` is `⌊2/3⌋ + 1 = 1`, not the claimed `⌈2/3⌉ + 1 = 2`. -/
theorem c3_quorum_not_ceil : quorumOf 1 ≠ quorumSpecCeil 1 := by decide

/-- C3 amended: the quorum `VerifyCommit` compares against is
`⌊2·total/3⌋ + 1`, the least integer strictly greater than two-thirds of
the total: `quorum ≤ x` iff `2·total < 3·x`. -/
theorem c3_quorum_floor_strictly_two_thirds (total x : Int) :
    quorumOf total ≤ x ↔ 2 * total < 3 * x := by
  unfold quorumOf
  rw [show Int.ediv (total * 2) 3 = (total * 2) / 3 from rfl]
  omega

/-- C4: an aggregate whose bitmap length differs from the validator-set
size is rejected: `AggrPubKey` returns nil and `VerifyCommit` returns a
non-nil error. -/
theorem c4_bitmap_length_mismatch_rejected (agg : List Nat → Nat)
    (verify : Nat → Nat → Nat → Bool) (signBytes : String → Vote → Nat)
    (vs : ValidatorSet) (chainID : String) (blockID : BlockID) (height : Int)
    (c : Commit) (h : c.bitArray.length ≠ vs.validators.length) :
    aggrPubKey agg vs (some c.bitArray) = none ∧
    verifyCommit agg verify signBytes vs chainID blockID height (some c) =
      VCOutcome.errors := by
  have h' : vs.size ≠ c.bitArray.length := by
    simpa [ValidatorSet.size] using (Ne.symm h)
  refine ⟨by simp [aggrPubKey, h], ?_⟩
  simp [verifyCommit, h']

/-- C4 witness: a one-validator set against a two-bit bitmap. -/
theorem c4_bitmap_length_mismatch_witness :
    aggrPubKey agg0 vsW2 (some cW4.bitArray) = none ∧
    verifyCommit agg0 verifyAlways sb0 vsW2 "pchain" (0, 0) 3 (some cW4) =
      VCOutcome.errors :=
  c4_bitmap_length_mismatch_rejected agg0 verifyAlways sb0 vsW2 "pchain" (0, 0) 3
    cW4 (by decide)

/-- C8: in a fast-sync step with two consecutive blocks available, the
earlier block is saved and applied exactly when `VerifyCommit` accepts the
later block's `LastCommit` against the current validator set, the earlier
block's height and its block id; when the verification returns an error,
the request for the earlier height is redone and the block is not saved. -/
theorem c8_fastSync_save_iff_verify (agg : List Nat → Nat)
    (verify : Nat → Nat → Nat → Bool) (signBytes : String → Vote → Nat)
    (chainID : String) (vs : ValidatorSet) (f s : Block) :
    (fastSyncStep agg verify signBytes chainID vs (some f) (some s) =
        SyncAction.saveAndApply f ↔
      verifyCommit agg verify signBytes vs chainID (f.hash, f.partSetHash)
        f.height s.lastCommit = VCOutcome.accepts) ∧
    (verifyCommit agg verify signBytes vs chainID (f.hash, f.partSetHash)
        f.height s.lastCommit = VCOutcome.errors →
      fastSyncStep agg verify signBytes chainID vs (some f) (some s) =
        SyncAction.redoRequest f.height) := by
  cases hv : verifyCommit agg verify signBytes vs chainID
      (f.hash, f.partSetHash) f.height s.lastCommit <;>
    simp [fastSyncStep, hv]

/-- C8 witness: a nil `LastCommit` fails verification, so the request for
height 1 is redone. -/
theorem c8_fastSync_witness :
    fastSyncStep agg0 verifyAlways sb0 "pchain" vsW2 (some blkW8a) (some blkW8b) =
      SyncAction.redoRequest 1 :=
  (c8_fastSync_save_iff_verify agg0 verifyAlways sb0 "pchain" vsW2 blkW8a
    blkW8b).2 rfl

/-- C2: for a non-nil commit whose bitmap size equals the set's size, whose
height matches, and with the `totalVotingPower` cache populated (the Go
code dereferences the cached `*big.Int` directly and would panic on nil),
`VerifyCommit` returns nil exactly when the aggregate public key of the
bitmap-selected validators verifies the aggregate signature over the
canonical sign-bytes of the reconstructed vote and the value returned by
`TalliedVotingPower` reaches the quorum; in every other case it returns a
non-nil error. -/
theorem c2_verifyCommit_iff (agg : List Nat → Nat)
    (verify : Nat → Nat → Nat → Bool) (signBytes : String → Vote → Nat)
    (vs : ValidatorSet) (chainID : String) (blockID : BlockID) (height : Int)
    (c : Commit) (total : Int) (hsz : vs.size = c.bitArray.length)
    (hh : height = c.height) (hcache : vs.totalVotingPower = some total) :
    (verifyCommit agg verify signBytes vs chainID blockID height (some c) =
        VCOutcome.accepts ↔
      (verify (agg (selectedPubKeys vs c.bitArray))
          (signBytes chainID (voteOfCommit c)) c.signAggr = true ∧
        ∃ t, talliedVotingPower vs (some c.bitArray) = Except.ok t ∧
          quorumOf total ≤ t)) ∧
    (verifyCommit agg verify signBytes vs chainID blockID height (some c) ≠
        VCOutcome.accepts →
      verifyCommit agg verify signBytes vs chainID blockID height (some c) =
        VCOutcome.errors) := by
  have hagg : aggrPubKey agg vs (some c.bitArray) =
      some (agg (selectedPubKeys vs c.bitArray)) := by
    have : ¬ (c.bitArray.length ≠ vs.validators.length) := by
      simp [ValidatorSet.size] at hsz
      simp [hsz]
    simp [aggrPubKey, this]
  have hvc : verifyCommit agg verify signBytes vs chainID blockID height
      (some c) =
      (if ¬ verify (agg (selectedPubKeys vs c.bitArray))
          (signBytes chainID (voteOfCommit c)) c.signAggr then
        VCOutcome.errors
      else
        match talliedVotingPower vs (some c.bitArray) with
        | Except.error _ => VCOutcome.errors
        | Except.ok tallied =>
          if quorumOf total ≤ tallied then VCOutcome.accepts
          else VCOutcome.errors) := by
    simp [verifyCommit, hsz, hh, hagg, hcache]
  rw [hvc]
  by_cases hver : verify (agg (selectedPubKeys vs c.bitArray))
      (signBytes chainID (voteOfCommit c)) c.signAggr = true
  · cases htv : talliedVotingPower vs (some c.bitArray) with
    | error e => simp [htv, hver]
    | ok t =>
      by_cases hq : quorumOf total ≤ t
      · simp [htv, hq, hver]
      · simp [htv, hq, hver]
  · simp [hver]

/-- C2 witness: a one-validator set with cached total 1 accepts a commit
whose bitmap is `[true]` under an always-true verifier. -/
theorem c2_verifyCommit_witness :
    verifyCommit agg0 verifyAlways sb0 vsW2 "pchain" (0, 0) 3 (some cW2) =
      VCOutcome.accepts :=
  (c2_verifyCommit_iff agg0 verifyAlways sb0 vsW2 "pchain" (0, 0) 3 cW2 1
    rfl rfl rfl).1.mpr ⟨rfl, 1, rfl, by decide⟩

/-- C7 counterexample: at `app_H = 0`, `store_H = 0`, `state_H = 1` the
claim demands a panic (`state_H > store_H`), but `ReplayBlocks` takes the
`storeBlockHeight == 0` branch first and merely checks the app hash. -/
theorem c7_store_zero_no_panic :
    (0 : Int) < 1 ∧
    isPanicDecision (replayBlocksDecision 0 0 1) = false ∧
    replayBlocksDecision 0 0 1 = ReplayDecision.checkAppHashOnly := by
  refine ⟨by decide, rfl, rfl⟩

/-- C7 amended: `ReplayBlocks` panics exactly when `store_H ≠ 0`,
`app_H ≤ store_H` and (`state_H > store_H` or `store_H > state_H + 1`); it
returns the app-block-height-too-high error exactly when `store_H ≠ 0` and
`store_H < app_H`; and when `app_H = store_H = state_H` it replays no
blocks and only checks the app hash. -/
theorem c7_replayBlocks_heights (appH storeH stateH : Int) :
    (isPanicDecision (replayBlocksDecision appH storeH stateH) = true ↔
      (storeH ≠ 0 ∧ appH ≤ storeH ∧
        (storeH < stateH ∨ stateH + 1 < storeH))) ∧
    (replayBlocksDecision appH storeH stateH =
        ReplayDecision.errAppBlockHeightTooHigh ↔
      (storeH ≠ 0 ∧ storeH < appH)) ∧
    (appH = storeH → storeH = stateH →
      replayBlocksDecision appH storeH stateH =
        ReplayDecision.checkAppHashOnly) := by
  unfold replayBlocksDecision
  split_ifs <;> simp_all [isPanicDecision] <;> omega

/-- C7 witness: equal heights replay nothing and only check the app hash. -/
theorem c7_replayBlocks_witness :
    replayBlocksDecision 4 4 4 = ReplayDecision.checkAppHashOnly :=
  (c7_replayBlocks_heights 4 4 4).2.2 rfl rfl

/-- Updating an accum preserves the length of the roster. -/
theorem updAccum_length (T : Int) (i : Nat) (l : List Validator) :
    (updAccum T i l).length = l.length := by
  induction l generalizing i with
  | nil => cases i <;> rfl
  | cons v t ih =>
    cases i with
    | zero => rfl
    | succ n => simp [updAccum, ih]

/-- Subtracting `T` from the accum at a live index lowers the accum sum by
exactly `T`. -/
theorem sumAccums_updAccum (T : Int) (i : Nat) (l : List Validator)
    (h : i < l.length) :
    sumAccums (updAccum T i l) = sumAccums l - T := by
  induction l generalizing i with
  | nil => simp at h
  | cons v t ih =>
    cases i with
    | zero =>
      simp only [updAccum, sumAccums, List.map_cons, List.sum_cons]
      ring
    | succ n =>
      have hn : n < t.length := by simpa using h
      simp only [updAccum, sumAccums, List.map_cons, List.sum_cons]
      have := ih n hn
      simp only [sumAccums] at this
      rw [this]
      ring

/-- The champion scan stays below the index bound. -/
theorem pickIdxAux_lt (t : List Validator) : ∀ best bestV i, best < i →
    pickIdxAux best bestV i t < i + t.length := by
  induction t with
  | nil =>
    intro best bestV i h
    simpa [pickIdxAux] using h
  | cons w tl ih =>
    intro best bestV i h
    simp only [pickIdxAux, List.length_cons]
    split
    · have := ih i w (i + 1) (Nat.lt_succ_self i)
      omega
    · have := ih best bestV (i + 1) (by omega)
      omega

/-- On a non-empty roster the heap pick is a live index. -/
theorem pickIdx_lt (l : List Validator) (h : l ≠ []) : pickIdx l < l.length := by
  cases l with
  | nil => exact absurd rfl h
  | cons v t =>
    have := pickIdxAux_lt t 0 v 1 (by omega)
    simpa [pickIdx, List.length_cons] using by omega

/-- Adding `times` multiples of the powers raises the accum sum by
`times` times the power sum. -/
theorem sumAccums_addAccums (times : Int) (l : List Validator) :
    sumAccums (addAccums times l) = sumAccums l + times * sumPowers l := by
  induction l with
  | nil => simp [addAccums, sumAccums, sumPowers]
  | cons v t ih =>
    simp only [addAccums, sumAccums, sumPowers, List.map_cons, List.sum_cons]
      at ih ⊢
    rw [ih]
    ring

/-- The decrement loop preserves the roster length. -/
theorem decIter_length (T : Int) (k : Nat) (l : List Validator) :
    (decIter T k l).length = l.length := by
  induction k generalizing l with
  | zero => rfl
  | succ n ih => simp [decIter, decOnce, ih, updAccum_length]

/-- On a non-empty roster, `k` decrement rounds lower the accum sum by
exactly `k` times the subtracted total. -/
theorem sumAccums_decIter (T : Int) (k : Nat) (l : List Validator)
    (h : l ≠ []) :
    sumAccums (decIter T k l) = sumAccums l - (k : Int) * T := by
  induction k generalizing l with
  | zero => simp [decIter]
  | succ n ih =>
    have hlt : pickIdx l < l.length := pickIdx_lt l h
    have hlen : (decOnce T l).length = l.length := updAccum_length T (pickIdx l) l
    have hne : decOnce T l ≠ [] := by
      intro hc
      rw [hc] at hlen
      simp at hlen
      exact h (List.length_eq_zero.mp hlen.symm)
    show sumAccums (decIter T n (decOnce T l)) = _
    rw [ih (decOnce T l) hne]
    have : sumAccums (decOnce T l) = sumAccums l - T :=
      sumAccums_updAccum T (pickIdx l) l hlt
    rw [this]
    push_cast
    ring

/-- The decrement loop fixes the empty roster. -/
theorem decIter_nil (T : Int) (k : Nat) : decIter T k [] = [] := by
  induction k with
  | zero => rfl
  | succ n ih => simpa [decIter, decOnce, updAccum] using ih

/-- C6: for a validator set with a consistent `totalVotingPower` cache,
`IncrementAccum(times)` leaves the sum of the accum values over all
validators unchanged — each round adds the total voting power across the
roster and debits the same total from the picked proposer. -/
theorem c6_incrementAccum_accum_zero_sum (vs : ValidatorSet) (times : Nat)
    (h : cacheConsistent vs) :
    sumAccums (incrementAccum times vs).validators = sumAccums vs.validators := by
  have hT : totalVotingPowerValue vs = sumPowers vs.validators := by
    cases h with
    | inl h0 => simp [totalVotingPowerValue, h0]
    | inr h0 => simp [totalVotingPowerValue, h0]
  by_cases hemp : vs.validators = []
  · simp [incrementAccum, hemp, addAccums, decIter_nil]
  · have hne1 : addAccums (times : Int) vs.validators ≠ [] := by
      intro hc
      exact hemp (List.map_eq_nil_iff.mp hc)
    show sumAccums (decIter (totalVotingPowerValue vs) times
      (addAccums (times : Int) vs.validators)) = _
    rw [sumAccums_decIter _ _ _ hne1, sumAccums_addAccums, hT]
    ring

/-- C6 witness: the zero-sum invariant evaluated on the concrete
two-validator set with three rounds. -/
theorem c6_zero_sum_witness :
    sumAccums (incrementAccum 3 vsC1).validators = sumAccums vsC1.validators :=
  c6_incrementAccum_accum_zero_sum vsC1 3 (Or.inl rfl)

/-- C5 counterexample: on the two-validator set with powers 1 and 2 and
accums -2 and -3, `IncrementAccum(2)` selects a different final proposer
than two rounds of the per-round reference procedure, and also a different
proposer than two successive calls of `IncrementAccum(1)`. -/
theorem c5_batched_counterexample :
    (incrementAccum 2 vsC5).proposer ≠ (refIter 2 vsC5).proposer ∧
    (incrementAccum 2 vsC5).proposer ≠
      (incrementAccum 1 (incrementAccum 1 vsC5)).proposer := by
  decide

/-- C5 amended: `IncrementAccum(times)` front-loads the additions — it adds
`VotingPower · times` to every accum and only then runs the `times`
pick-and-debit rounds — so for `times = 1` (and a consistent cache) it
coincides with one round of the reference procedure, while for
`times ≥ 2` it may disagree with `times` successive single rounds. -/
theorem c5_incrementAccum_one_refines (vs : ValidatorSet)
    (h : cacheConsistent vs) :
    (incrementAccum 1 vs).validators = (refRound vs).validators ∧
    (incrementAccum 1 vs).proposer = (refRound vs).proposer := by
  have hT : totalVotingPowerValue vs = sumPowers vs.validators := by
    cases h with
    | inl h0 => simp [totalVotingPowerValue, h0]
    | inr h0 => simp [totalVotingPowerValue, h0]
  constructor <;> simp [incrementAccum, refRound, decIter, decOnce, hT]

/-- C5 witness: the `times = 1` agreement evaluated on the concrete
two-validator set. -/
theorem c5_refines_witness :
    (incrementAccum 1 vsC5).validators = (refRound vsC5).validators ∧
    (incrementAccum 1 vsC5).proposer = (refRound vsC5).proposer :=
  c5_incrementAccum_one_refines vsC5 (Or.inl rfl)

/-- `bytes.Compare` answering `eq` means the byte slices are equal. -/
theorem bytesCompare_eq (a : List Nat) : ∀ b, bytesCompare a b = Ordering.eq →
    a = b := by
  induction a with
  | nil =>
    intro b h
    cases b with
    | nil => rfl
    | cons y ys => exact absurd h (by simp [bytesCompare])
  | cons x xs ih =>
    intro b h
    cases b with
    | nil => exact absurd h (by simp [bytesCompare])
    | cons y ys =>
      by_cases hlt : x < y
      · simp [bytesCompare, hlt] at h
      · by_cases hgt : y < x
        · simp [bytesCompare, hlt, hgt] at h
        · have hxy : x = y := by omega
          have hrec : bytesCompare xs ys = Ordering.eq := by
            simpa [bytesCompare, hlt, hgt] using h
          rw [hxy, ih ys hrec]

/-- The linear scan never runs past its fuel. -/
theorem sortSearchAux_le (f : Nat → Bool) : ∀ fuel i,
    sortSearchAux f i fuel ≤ i + fuel := by
  intro fuel
  induction fuel with
  | zero => intro i; simp [sortSearchAux]
  | succ n ih =>
    intro i
    simp only [sortSearchAux]
    split
    · omega
    · have := ih (i + 1)
      omega

/-- `sort.Search(n, f)` returns an index in `[0, n]`. -/
theorem sortSearch_le (n : Nat) (f : Nat → Bool) : sortSearch n f ≤ n := by
  simpa [sortSearch] using sortSearchAux_le f n 0


/-- The shared address search returns an index in `[0, |l|]`. -/
theorem addrSearchIdx_le (l : List Validator) (a : List Nat) :
    addrSearchIdx l a ≤ l.length :=
  sortSearch_le l.length _

/-- Characterization of a successful `GetByAddress`: the reported index is
the shared search index, the validator is stored there, and its address
compares equal to the query. -/
theorem getByAddress_some_elim (vs : ValidatorSet) (addr : List Nat) (i : Nat)
    (v : Validator) (h : getByAddress vs addr = (i, some v)) :
    i = addrSearchIdx vs.validators addr ∧
    vs.validators.get? i = some v ∧
    addrSearchIdx vs.validators addr ≠ vs.validators.length ∧
    bytesCompare (addrAt vs.validators i) addr = Ordering.eq := by
  simp only [getByAddress] at h
  split_ifs at h with hc
  · obtain ⟨hne, hcmp⟩ := hc
    obtain ⟨h1, h2⟩ := Prod.mk.injEq .. ▸ h
    refine ⟨h1.symm, ?_, hne, ?_⟩
    · rw [← h1]
      exact h2
    · rw [← h1]
      exact hcmp
  · simp at h

/-- A found validator's stored address equals the queried address. -/
theorem getByAddress_some_address (vs : ValidatorSet) (addr : List Nat)
    (i : Nat) (v : Validator) (h : getByAddress vs addr = (i, some v)) :
    v.address = addr := by
  obtain ⟨_, hget, _, hcmp⟩ := getByAddress_some_elim vs addr i v h
  have : addrAt vs.validators i = v.address := by
    simp only [addrAt]
    rw [hget]
  rw [this] at hcmp
  exact bytesCompare_eq v.address addr hcmp

/-- When `GetByAddress` finds nothing under the validator's address, `Add`
succeeds and invalidates the proposer and the voting-power cache. -/
theorem add_of_absent (vs : ValidatorSet) (val : Validator)
    (h : (getByAddress vs val.address).2 = none) :
    (vs.add val).2 = true ∧ (vs.add val).1.proposer = none ∧
    (vs.add val).1.totalVotingPower = none := by
  simp only [getByAddress] at h
  simp only [ValidatorSet.add]
  by_cases hin : addrSearchIdx vs.validators val.address = vs.validators.length
  · simp [hin]
  · by_cases hcmp : bytesCompare
        (addrAt vs.validators (addrSearchIdx vs.validators val.address))
        val.address = Ordering.eq
    · exfalso
      rw [if_pos ⟨hin, hcmp⟩] at h
      simp only at h
      have hle := addrSearchIdx_le vs.validators val.address
      have := List.get?_eq_none.mp h
      omega
    · simp [hin, hcmp]

/-- When `GetByAddress` finds a validator, `Remove` succeeds and
invalidates the proposer and the voting-power cache. -/
theorem remove_of_present (vs : ValidatorSet) (addr : List Nat) (i : Nat)
    (v : Validator) (h : getByAddress vs addr = (i, some v)) :
    (vs.remove addr).2.2 = true ∧ (vs.remove addr).1.proposer = none ∧
    (vs.remove addr).1.totalVotingPower = none := by
  obtain ⟨h1, _, hne, hcmp⟩ := getByAddress_some_elim vs addr i v h
  rw [h1] at hcmp
  simp only [ValidatorSet.remove]
  rw [if_neg]
  · simp
  · push_neg
    exact ⟨hne, by simp [hcmp]⟩

/-- When `GetByAddress` finds a validator under the update's address,
`Update` succeeds and invalidates the proposer and the voting-power
cache. -/
theorem update_of_present (vs : ValidatorSet) (val : Validator) (i : Nat)
    (v : Validator) (h : getByAddress vs val.address = (i, some v)) :
    (vs.update val).2 = true ∧ (vs.update val).1.proposer = none ∧
    (vs.update val).1.totalVotingPower = none := by
  simp only [ValidatorSet.update, h]
  exact ⟨trivial, trivial, trivial⟩

/-- C9 amended: `UpdateValidators` checks membership first — a change
whose pubkey's address is absent is added as a new validator with the given
power (even when the power is 0); for a present address, power 0 removes it
and a positive power updates its voting power; and after any applied change
the resulting set has its proposer reset and its `totalVotingPower` cache
invalidated. -/
theorem c9_updateValidators_cases (addrOf : Nat → List Nat)
    (vs : ValidatorSet) (c : ValidatorChange) (hp : 0 ≤ c.power) :
    ((getByAddress vs (addrOf c.pubKey)).2 = none →
      updateValidators addrOf vs [c] =
        Except.ok (vs.add (newValidator addrOf c.pubKey c.power)).1) ∧
    (∀ i v, getByAddress vs (addrOf c.pubKey) = (i, some v) → c.power = 0 →
      updateValidators addrOf vs [c] =
        Except.ok (vs.remove (addrOf c.pubKey)).1) ∧
    (∀ i v, getByAddress vs (addrOf c.pubKey) = (i, some v) → 0 < c.power →
      updateValidators addrOf vs [c] =
        Except.ok (vs.update { v with votingPower := c.power }).1) ∧
    (∀ vs', updateValidators addrOf vs [c] = Except.ok vs' →
      vs'.proposer = none ∧ vs'.totalVotingPower = none) := by
  have hnn : ¬ (c.power < 0) := by omega
  rcases hg : getByAddress vs (addrOf c.pubKey) with ⟨j, vopt⟩
  cases vopt with
  | none =>
    have hadd := add_of_absent vs (newValidator addrOf c.pubKey c.power)
      (by rw [show (newValidator addrOf c.pubKey c.power).address =
          addrOf c.pubKey from rfl, hg])
    refine ⟨?_, ?_, ?_, ?_⟩
    · intro _
      simp [updateValidators, hnn, hg, hadd.1]
    · intro i v hiv _
      simp at hiv
    · intro i v hiv _
      simp at hiv
    · intro vs' hvs'
      simp [updateValidators, hnn, hg, hadd.1] at hvs'
      subst hvs'
      exact ⟨hadd.2.1, hadd.2.2⟩
  | some v0 =>
    by_cases hz : c.power = 0
    · have hrem := remove_of_present vs (addrOf c.pubKey) j v0 hg
      refine ⟨?_, ?_, ?_, ?_⟩
      · intro hnone
        simp at hnone
      · intro i v hiv _
        simp [updateValidators, hnn, hg, hz, hrem.1]
      · intro i v hiv hpos
        omega
      · intro vs' hvs'
        simp [updateValidators, hnn, hg, hz, hrem.1] at hvs'
        subst hvs'
        exact ⟨hrem.2.1, hrem.2.2⟩
    · have hvaddr : v0.address = addrOf c.pubKey :=
        getByAddress_some_address vs (addrOf c.pubKey) j v0 hg
      have hg2 : getByAddress vs
          ({ v0 with votingPower := c.power }).address = (j, some v0) := by
        show getByAddress vs v0.address = (j, some v0)
        rw [hvaddr]
        exact hg
      have hupd := update_of_present vs { v0 with votingPower := c.power }
        j v0 hg2
      refine ⟨?_, ?_, ?_, ?_⟩
      · intro hnone
        simp at hnone
      · intro i v hiv hzz
        exact absurd hzz hz
      · intro i v hiv _
        injection hiv with h1 h2
        injection h2 with h3
        subst h3
        simp [updateValidators, hnn, hg, hz, hupd.1]
      · intro vs' hvs'
        simp [updateValidators, hnn, hg, hz, hupd.1] at hvs'
        subst hvs'
        exact ⟨hupd.2.1, hupd.2.2⟩

/-- C9 counterexample: a change with power 0 whose address is not in the
set does not remove anything — `UpdateValidators` on the empty set adds a
zero-power validator for that pubkey, and the call succeeds. -/
theorem c9_power_zero_absent_adds :
    (updateValidators addrOfW vsEmpty
        [{ pubKey := 5, power := 0 }]).toOption.map
      (fun r => r.validators) =
      some [{ address := [5], pubKey := 5, votingPower := 0, accum := 0 }] := by
  decide

/-- C9 witness: a power-0 change for the present address `[5]` removes that
validator. -/
theorem c9_updateValidators_witness :
    updateValidators addrOfW vsW9 [{ pubKey := 5, power := 0 }] =
      Except.ok (vsW9.remove (addrOfW 5)).1 :=
  (c9_updateValidators_cases addrOfW vsW9 { pubKey := 5, power := 0 }
    (by decide)).2.1 0 { address := [5], pubKey := 5, votingPower := 3, accum := 0 }
    (by decide) rfl

/-- Frame lemma: mutating a cell at or beyond the old store length (in a
store extended by fresh allocations) changes none of the observations of a
well-formed pointer-level set. -/
theorem observeP_frame (st ext : VStore) (vs : ValidatorSetP)
    (hwf : wfP st vs) (p : Nat) (hp : st.length ≤ p) (v : Validator) :
    observeP (setPtr (st ++ ext) p v) vs = observeP st vs := by
  have key : ∀ q, q < st.length →
      (setPtr (st ++ ext) p v).get? q = st.get? q := by
    intro q hq
    unfold setPtr
    rw [List.get?_eq_getElem?, List.get?_eq_getElem?,
      List.getElem?_set_ne (by omega)]
    rw [List.getElem?_append]
    simp [hq]
  have h1 : vs.validatorPtrs.map (fun q => (setPtr (st ++ ext) p v).get? q) =
      vs.validatorPtrs.map (fun q => st.get? q) :=
    List.map_congr_left (fun q hq => key q (hwf.1 q hq))
  simp only [observeP]
  rw [h1]
  cases hpp : vs.proposerPtr with
  | none => simp
  | some pp =>
    simp only [Option.bind_some, Option.some_bind]
    rw [key pp (hwf.2 pp hpp)]

/-- C10: `GetByAddress`, `GetByIndex` and `Iterate` hand out pointers to
fresh copies: mutating the object behind any pointer they return (e.g.
overwriting its voting power or accum) leaves every observation of a
well-formed set — its stored validators, its total voting power and its
proposer — unchanged. -/
theorem c10_copies_are_fresh (st : VStore) (vs : ValidatorSetP)
    (hwf : wfP st vs) (address : List Nat) (index : Nat) (newVal : Validator) :
    (∀ st' i p, getByAddressP st vs address = (st', i, some p) →
      observeP (setPtr st' p newVal) vs = observeP st vs) ∧
    (∀ st' a p, getByIndexP st vs index = (st', a, some p) →
      observeP (setPtr st' p newVal) vs = observeP st vs) ∧
    (∀ p, p ∈ (iterateP st vs).2 →
      observeP (setPtr (iterateP st vs).1 p newVal) vs = observeP st vs) := by
  refine ⟨?_, ?_, ?_⟩
  · intro st' i p h
    simp only [getByAddressP, allocVal] at h
    split at h
    · split at h
      · simp only [Prod.mk.injEq, Option.some.injEq] at h
        obtain ⟨h1, _, h3⟩ := h
        rw [← h1, ← h3]
        exact observeP_frame st _ vs hwf st.length (Nat.le_refl _) newVal
      · simp at h
    · simp at h
  · intro st' a p h
    simp only [getByIndexP, allocVal] at h
    split at h
    · simp only [Prod.mk.injEq, Option.some.injEq] at h
      obtain ⟨h1, _, h3⟩ := h
      rw [← h1, ← h3]
      exact observeP_frame st _ vs hwf st.length (Nat.le_refl _) newVal
    · simp at h
  · intro p hp
    simp only [iterateP] at hp ⊢
    split at hp
    · simp at hp
    · simp only [List.mem_map, List.mem_range] at hp
      obtain ⟨k, _, hk⟩ := hp
      exact observeP_frame st _ vs hwf p (by omega) newVal

/-- C10 witness: mutating the fresh copy handed out by the pointer-level
`GetByAddress` on a concrete one-validator store leaves every observation
of the set unchanged. -/
theorem c10_copies_witness :
    observeP (setPtr
      (stW10 ++ [{ address := [1], pubKey := 1, votingPower := 5, accum := 0 }])
      1 { address := [1], pubKey := 1, votingPower := 99, accum := 7 }) vsW10 =
    observeP stW10 vsW10 :=
  (c10_copies_are_fresh stW10 vsW10
    ⟨by decide, fun p hp => by
      simp only [vsW10, Option.some.injEq] at hp
      show p < 1
      omega⟩
    [1] 0 { address := [1], pubKey := 1, votingPower := 99, accum := 7 }).1
    (stW10 ++ [{ address := [1], pubKey := 1, votingPower := 5, accum := 0 }])
    0 1 (by decide)
